import Mathlib

/-!
Verification of the FormulaCorrection repository (src/App.js) against its
natural-language specification.

The development shallowly embeds the domain logic of App.js:
the AtomicFormula class (add, toFormulaString, parseFormulaString),
the matching engine of applyCorrections (last-write-wins index, batched
double loop, guard on empty inputs), the CSV schema validation and catalog
loader, and the export-row construction of exportToCSV.

JS machine numbers are modelled as unbounded Int (the counts in play are
small integers, far from any double-precision boundary).
-/

namespace FormulaCorrection

/-- The AtomicFormula class: seven per-element integer counts, in the
constructor order of App.js (carbon, hydrogen, nitrogen, oxygen, sulfur,
phosphorus, chlorine). -/
structure AtomicFormula where
  carbon : Int
  hydrogen : Int
  nitrogen : Int
  oxygen : Int
  sulfur : Int
  phosphorus : Int
  chlorine : Int
deriving DecidableEq, Repr

/-- Element-wise sum, mirroring AtomicFormula.add. -/
def AtomicFormula.add (a b : AtomicFormula) : AtomicFormula :=
  ⟨a.carbon + b.carbon, a.hydrogen + b.hydrogen, a.nitrogen + b.nitrogen,
   a.oxygen + b.oxygen, a.sulfur + b.sulfur, a.phosphorus + b.phosphorus,
   a.chlorine + b.chlorine⟩

/-- The all-zero formula, i.e. new AtomicFormula() with default arguments. -/
def zeroFormula : AtomicFormula := ⟨0, 0, 0, 0, 0, 0, 0⟩

/-! ### Decimal rendering of integers

JS template literals render integer-valued numbers in plain decimal.
We model this with an explicit fuel-based digit builder (fuel n suffices
because n / 10 strictly decreases below any positive n). -/

/-- Build the decimal digit list of a natural number in front of acc.
The fuel argument only ensures structural recursion; fuel at least n is
enough since the value shrinks by a factor of ten each step. -/
def natDigitsGo : Nat → Nat → List Char → List Char
  | _, 0, acc => acc
  | 0, _ + 1, acc => acc
  | fuel + 1, n + 1, acc =>
    natDigitsGo fuel ((n + 1) / 10) (Nat.digitChar ((n + 1) % 10) :: acc)

/-- Decimal string of a natural number. -/
def natToString (n : Nat) : String :=
  if n = 0 then "0" else String.mk (natDigitsGo n n [])

/-- Decimal string of an integer, as a JS template literal renders it. -/
def intToString : Int → String
  | .ofNat n => natToString n
  | .negSucc n => "-" ++ natToString (n + 1)

/-- The ten decimal digit characters. -/
def decDigits : List Char := ['0', '1', '2', '3', '4', '5', '6', '7', '8', '9']

/-- Value of a digit list read left to right (decimal). -/
def digitsVal (l : List Char) (init : Nat) : Nat :=
  l.foldl (fun a c => a * 10 + (c.toNat - 48)) init

/-- Decimal value of a digit list. -/
def digitsToNat (l : List Char) : Nat := digitsVal l 0

/-- Model of parseInt(s) || 0 on the number captures produced by the regex
scanner: the capture is empty, a bare minus sign, or an optional minus sign
followed by digits.  parseInt yields NaN on the first two (so || 0 gives 0)
and the signed decimal value otherwise. -/
def parseIntOr0 (l : List Char) : Int :=
  match l with
  | [] => 0
  | c :: ds =>
    if c = '-' then (if ds = [] then 0 else -(digitsToNat ds : Int))
    else (digitsToNat (c :: ds) : Int)

/-! ### The token scanner

parseFormulaString drives the global regex ([A-Z][a-z]?)(-?\d*) over the
input with exec.  Matches can only start at an ASCII uppercase letter; the
symbol capture takes that letter plus at most one following lowercase
letter; the number capture then greedily takes an optional minus sign and
any run of digits.  We transcribe this as a left-to-right state machine:
idle (no match in progress), sym1 (symbol of one uppercase letter, a
lowercase extension still possible), sym2 (two-letter symbol complete),
num (number capture in progress, only digits may extend it). -/

inductive ScanState where
  | idle : ScanState
  | sym1 : List Char → ScanState
  | sym2 : List Char → ScanState
  | num : List Char → List Char → ScanState
deriving DecidableEq, Repr

/-- Token emitted when the match in progress ends. -/
def flushState : ScanState → List (String × String)
  | .idle => []
  | .sym1 s => [(String.mk s, "")]
  | .sym2 s => [(String.mk s, "")]
  | .num s n => [(String.mk s, String.mk n)]

/-- One character step of the scanner: emitted tokens plus next state. -/
def stepChar : ScanState → Char → List (String × String) × ScanState
  | .idle, c => if c.isUpper then ([], .sym1 [c]) else ([], .idle)
  | .sym1 s, c =>
    if c.isLower then ([], .sym2 (s ++ [c]))
    else if c = '-' then ([], .num s [c])
    else if c.isDigit then ([], .num s [c])
    else if c.isUpper then (flushState (.sym1 s), .sym1 [c])
    else (flushState (.sym1 s), .idle)
  | .sym2 s, c =>
    if c = '-' then ([], .num s [c])
    else if c.isDigit then ([], .num s [c])
    else if c.isUpper then (flushState (.sym2 s), .sym1 [c])
    else (flushState (.sym2 s), .idle)
  | .num s n, c =>
    if c.isDigit then ([], .num s (n ++ [c]))
    else if c.isUpper then (flushState (.num s n), .sym1 [c])
    else (flushState (.num s n), .idle)

/-- Run the scanner over a character list, flushing at the end of input. -/
def scanGo (st : ScanState) : List Char → List (String × String)
  | [] => flushState st
  | c :: rest => (stepChar st c).1 ++ scanGo (stepChar st c).2 rest

/-- All (symbol capture, number capture) matches of the regex over s. -/
def scanFormulaTokens (s : String) : List (String × String) :=
  scanGo .idle s.data

/-- Final content of atoms[sym] after the exec loop writes
parseInt(number) || 0 for every token in order (last write wins), with the
trailing || 0 for an absent key. -/
def lastCount (sym : String) (tokens : List (String × String)) : Int :=
  tokens.foldl (fun acc t => if t.1 = sym then parseIntOr0 t.2.data else acc) 0

/-- AtomicFormula.parseFormulaString: scan the input, keep the last count
written for each tracked symbol, and build the formula in constructor
order C, H, N, O, S, P, Cl. -/
def AtomicFormula.parseFormulaString (formula : String) : AtomicFormula :=
  let tokens := scanFormulaTokens formula
  ⟨lastCount "C" tokens, lastCount "H" tokens, lastCount "N" tokens,
   lastCount "O" tokens, lastCount "S" tokens, lastCount "P" tokens,
   lastCount "Cl" tokens⟩

/-- AtomicFormula.toFormulaString: the canonical string
C.H.Cl.N.O.P.S with each count rendered in decimal. -/
def AtomicFormula.toFormulaString (f : AtomicFormula) : String :=
  "C" ++ intToString f.carbon ++ "H" ++ intToString f.hydrogen ++
  "Cl" ++ intToString f.chlorine ++ "N" ++ intToString f.nitrogen ++
  "O" ++ intToString f.oxygen ++ "P" ++ intToString f.phosphorus ++
  "S" ++ intToString f.sulfur

example : AtomicFormula.parseFormulaString "C3H8" = ⟨3, 8, 0, 0, 0, 0, 0⟩ := by decide

example : AtomicFormula.parseFormulaString "" = zeroFormula := by decide

example : AtomicFormula.parseFormulaString "Xy" = zeroFormula := by decide

example : AtomicFormula.parseFormulaString "C" = zeroFormula := by decide

example : AtomicFormula.parseFormulaString "Cl2C-3" = ⟨-3, 0, 0, 0, 0, 0, 2⟩ := by decide

example : (⟨10, 20, 2, 5, 1, 0, 0⟩ : AtomicFormula).toFormulaString
    = "C10H20Cl0N2O5P0S1" := by decide

example : AtomicFormula.parseFormulaString "C+3" = zeroFormula := by decide

/-! ### The matching engine (applyCorrections) -/

/-- A formula catalog entry, as built by handleFormulaFile. -/
structure FormulaEntry where
  id : String
  originalFormula : AtomicFormula
deriving DecidableEq, Repr

/-- A correction, as built by handleCorrectionFile: a wrapped delta. -/
structure Correction where
  formula : AtomicFormula
deriving DecidableEq, Repr

/-- A match record pushed into newResults by applyCorrections. -/
structure MatchResult where
  originalEntry : FormulaEntry
  matchedEntry : FormulaEntry
  appliedCorrection : AtomicFormula
deriving DecidableEq, Repr

/-- The formulasByFormula Map.  Map.set is modelled by prepending, so the
most recent write for a key is found first by lookup. -/
def buildIndex (formulas : List FormulaEntry) : List (String × FormulaEntry) :=
  formulas.foldl (fun m c => (c.originalFormula.toFormulaString, c) :: m) []

/-- Map.get on the model: first (i.e. most recently written) binding. -/
def indexGet (idx : List (String × FormulaEntry)) (key : String) : Option FormulaEntry :=
  (idx.find? (fun p => p.1 = key)).map (fun p => p.2)

/-- The inner-loop body of applyCorrections: add the correction delta,
look the corrected canonical string up in the index, and emit a match
record when an entry with a different id is found. -/
def tryMatch (idx : List (String × FormulaEntry)) (formula : FormulaEntry)
    (correction : Correction) : Option MatchResult :=
  let correctedFormula := formula.originalFormula.add correction.formula
  match indexGet idx correctedFormula.toFormulaString with
  | some matchedFormula =>
    if matchedFormula.id ≠ formula.id then
      some ⟨formula, matchedFormula, correction.formula⟩
    else none
  | none => none

/-- Chunk a list into consecutive slices of size bs, as the indexed
for-loop of applyCorrections does with slice.  Fuel (the list length)
only provides structural recursion; it cannot run out when bs is at
least 1 since each step drops at least one element. -/
def chunkGo (bs : Nat) : Nat → List FormulaEntry → List (List FormulaEntry)
  | _, [] => []
  | 0, _ :: _ => []
  | fuel + 1, c :: cs => (c :: cs).take bs :: chunkGo bs fuel ((c :: cs).drop bs)

/-- The consecutive batches of size bs of a list. -/
def chunkList (bs : Nat) (l : List FormulaEntry) : List (List FormulaEntry) :=
  chunkGo bs l.length l

/-- The batched matching computation of applyCorrections: build the index
once, then loop over batches, over the entries of each batch, and over
corrections, pushing emitted matches in order. -/
def applyCorrectionsBatched (bs : Nat) (formulas : List FormulaEntry)
    (corrections : List Correction) : List MatchResult :=
  let idx := buildIndex formulas
  (chunkList bs formulas).flatMap
    (fun batch => batch.flatMap
      (fun formula => corrections.filterMap (tryMatch idx formula)))

/-- Modelled from the spec (section 4.4): the flat double loop, outer over
entries in input order and inner over corrections in input order, used as
the reference point of the batching-invariance claim. -/
def matchLoopFlat (formulas : List FormulaEntry)
    (corrections : List Correction) : List MatchResult :=
  let idx := buildIndex formulas
  formulas.flatMap (fun formula => corrections.filterMap (tryMatch idx formula))

/-- The applyCorrections entry point: the guard surfaces an error when
either input list is empty, otherwise the batched computation runs with
batchSize 100 and its matches become the new results. -/
def applyCorrections (formulas : List FormulaEntry)
    (corrections : List Correction) : Except String (List MatchResult) :=
  if formulas.length = 0 ∨ corrections.length = 0 then
    .error "No formulas or corrections loaded"
  else
    .ok (applyCorrectionsBatched 100 formulas corrections)

/-! ### Loaders -/

/-- The whitespace set stripped by JS String.prototype.trim: the
ECMAScript WhiteSpace characters (tab, vertical tab, form feed, space,
no-break space, the Unicode space separators, the byte order mark)
together with the line terminators (line feed, carriage return, line
separator, paragraph separator). -/
def jsWhitespace (c : Char) : Bool :=
  c.toNat = 0x9 ∨ c.toNat = 0xA ∨ c.toNat = 0xB ∨ c.toNat = 0xC ∨
  c.toNat = 0xD ∨ c.toNat = 0x20 ∨ c.toNat = 0xA0 ∨ c.toNat = 0x1680 ∨
  (0x2000 ≤ c.toNat ∧ c.toNat ≤ 0x200A) ∨ c.toNat = 0x2028 ∨
  c.toNat = 0x2029 ∨ c.toNat = 0x202F ∨ c.toNat = 0x205F ∨
  c.toNat = 0x3000 ∨ c.toNat = 0xFEFF

/-- The trim of header.trim() and row.formulas.trim(): drop the JS
whitespace set from both ends.  (Defined structurally so that concrete
runs evaluate in the kernel; the library trim is built on well-founded
recursion and covers a narrower character set.) -/
def jsTrim (s : String) : String :=
  String.mk
    (((s.data.dropWhile jsWhitespace).reverse.dropWhile jsWhitespace).reverse)

/-- validateCSVStructure: none means isValid, some msg carries the
message naming the missing required columns. -/
def validateCSVStructure (headers : List String) : Option String :=
  let requiredColumns := ["ID", "formulas"]
  let missingColumns := requiredColumns.filter
    (fun col => ¬ headers.any (fun header => jsTrim header = col))
  if missingColumns.length > 0 then
    some ("Missing required column(s): " ++ String.intercalate ", " missingColumns)
  else none

/-- A parsed CSV record restricted to the two fields the loader reads;
a missing or empty field is the empty string (falsy in the JS filter). -/
structure CSVRow where
  ID : String
  formulas : String
deriving DecidableEq, Repr

/-- The complete callback of handleFormulaFile as a state transition:
given the previous catalog, produce the new catalog and the surfaced
error, if any.  On a schema error the catalog is reset to empty; on an
empty parse result only the error is surfaced (the catalog is kept);
otherwise the parsed entries replace the catalog. -/
def handleFormulaRecords (prev : List FormulaEntry) (headers : List String)
    (rows : List CSVRow) : List FormulaEntry × Option String :=
  match validateCSVStructure headers with
  | some msg => ([], some msg)
  | none =>
    let parsedFormulas := (rows.filter
        (fun row => row.ID ≠ "" ∧ row.formulas ≠ "")).map
      (fun row => FormulaEntry.mk row.ID
        (AtomicFormula.parseFormulaString (jsTrim row.formulas)))
    if parsedFormulas.length = 0 then
      (prev, some "No valid formulas found in the CSV file")
    else (parsedFormulas, none)

/-! ### Export (exportToCSV) -/

/-- The match description string of exportToCSV, exactly as the template
literal renders it (spaces around both equal signs). -/
def matchDescription (m : MatchResult) : String :=
  "correction = " ++ m.appliedCorrection.toFormulaString ++
  " result = (ID " ++ m.matchedEntry.id ++ ") " ++
  m.matchedEntry.originalFormula.toFormulaString

/-- Modelled from the spec (section 4.5): the ordered list of match
description strings of an entry, one per match whose originalEntry id is
the entry id, in engine emission order, in the exact format the spec
claims (no spaces around the equal signs). -/
def matchDescriptionsClaimed (results : List MatchResult)
    (f : FormulaEntry) : List String :=
  (results.filter (fun r => r.originalEntry.id = f.id)).map
    (fun m => "correction=" ++ m.appliedCorrection.toFormulaString ++
      " result=(ID " ++ m.matchedEntry.id ++ ") " ++
      m.matchedEntry.originalFormula.toFormulaString)

/-- Modelled from the spec (section 4.5), amended per the code: the
ordered description strings of an entry, one per match whose originalEntry
id is the entry id, in engine emission order, with spaces around both
equal signs as the template literal renders them. -/
def matchDescriptionsAmended (results : List MatchResult)
    (f : FormulaEntry) : List String :=
  (results.filter (fun r => r.originalEntry.id = f.id)).map
    (fun m => "correction = " ++ m.appliedCorrection.toFormulaString ++
      " result = (ID " ++ m.matchedEntry.id ++ ") " ++
      m.matchedEntry.originalFormula.toFormulaString)

/-- An export row of exportToCSV. -/
structure ExportRow where
  ID : String
  originalFormula : String
  numberOfMatches : Nat
  matchesColumn : String
deriving DecidableEq, Repr

/-- Row construction of exportToCSV for one entry: the Matches column is
the bracketed comma-joined description list when the entry has matches
and the empty string otherwise. -/
def exportRow (results : List MatchResult) (formula : FormulaEntry) : ExportRow :=
  let matchesForFormula := results.filter (fun r => r.originalEntry.id = formula.id)
  { ID := formula.id
    originalFormula := formula.originalFormula.toFormulaString
    numberOfMatches := matchesForFormula.length
    matchesColumn :=
      if matchesForFormula.length > 0 then
        "[" ++ String.intercalate ", " (matchesForFormula.map matchDescription) ++ "]"
      else "" }

/-- exportToCSV over the displayed entries: one row per entry. -/
def exportToCSV (sortedFormulas : List FormulaEntry)
    (results : List MatchResult) : List ExportRow :=
  sortedFormulas.map (exportRow results)

/-! ### Concrete sample inputs used by witnesses and counterexamples -/

/-- First entry of the end-to-end scenario of section 8 of the spec. -/
def sampleEntry1 : FormulaEntry :=
  ⟨"1", AtomicFormula.parseFormulaString "C10H20N2O5S1P0"⟩

/-- Second entry of the end-to-end scenario. -/
def sampleEntry2 : FormulaEntry :=
  ⟨"2", AtomicFormula.parseFormulaString "C10H21N2O5S1P0"⟩

/-- The H1 correction of the end-to-end scenario. -/
def sampleCorrection : Correction := ⟨AtomicFormula.parseFormulaString "H1"⟩

/-- The single match of the end-to-end scenario. -/
def sampleMatch : MatchResult := ⟨sampleEntry1, sampleEntry2, sampleCorrection.formula⟩

/-- First entry of the duplicate-formula catalog of the index-overwrite
scenario. -/
def dupEntry1 : FormulaEntry := ⟨"1", AtomicFormula.parseFormulaString "C1H1"⟩

/-- Second entry of the duplicate-formula catalog. -/
def dupEntry2 : FormulaEntry := ⟨"2", AtomicFormula.parseFormulaString "C1H1"⟩

/-- The zero-delta correction C0H0. -/
def zeroCorrection : Correction := ⟨AtomicFormula.parseFormulaString "C0H0"⟩

example :
    applyCorrections
      [⟨"1", AtomicFormula.parseFormulaString "C10H20N2O5S1P0"⟩,
       ⟨"2", AtomicFormula.parseFormulaString "C10H21N2O5S1P0"⟩]
      [⟨AtomicFormula.parseFormulaString "H1"⟩]
    = .ok [⟨⟨"1", ⟨10, 20, 2, 5, 1, 0, 0⟩⟩, ⟨"2", ⟨10, 21, 2, 5, 1, 0, 0⟩⟩,
           ⟨0, 1, 0, 0, 0, 0, 0⟩⟩] := by rfl

example :
    applyCorrections
      [⟨"1", AtomicFormula.parseFormulaString "C1H1"⟩,
       ⟨"2", AtomicFormula.parseFormulaString "C1H1"⟩]
      [⟨AtomicFormula.parseFormulaString "C0H0"⟩]
    = .ok [⟨⟨"1", ⟨1, 1, 0, 0, 0, 0, 0⟩⟩, ⟨"2", ⟨1, 1, 0, 0, 0, 0, 0⟩⟩,
           zeroFormula⟩] := by rfl

/-! ### Lemmas: decimal digits and integer rendering -/

lemma decDigits_classes :
    ∀ c ∈ decDigits, c.isDigit = true ∧ c.isUpper = false ∧ c.isLower = false ∧ c ≠ '-' := by
  decide

lemma digitChar_mem_decDigits {r : Nat} (h : r < 10) : Nat.digitChar r ∈ decDigits := by
  interval_cases r <;> decide

lemma digitChar_toNat {r : Nat} (h : r < 10) : (Nat.digitChar r).toNat - 48 = r := by
  interval_cases r <;> decide

lemma natDigitsGo_zero (fuel : Nat) (acc : List Char) : natDigitsGo fuel 0 acc = acc := by
  cases fuel <;> rfl

lemma natDigitsGo_mem :
    ∀ fuel n acc, (∀ c ∈ acc, c ∈ decDigits) →
      ∀ c ∈ natDigitsGo fuel n acc, c ∈ decDigits := by
  intro fuel
  induction fuel with
  | zero =>
    intro n acc hacc c hc
    cases n <;> exact hacc c hc
  | succ f ih =>
    intro n acc hacc c hc
    cases n with
    | zero => exact hacc c hc
    | succ m =>
      refine ih _ _ ?_ c hc
      intro d hd
      rcases List.mem_cons.mp hd with h | h
      · exact h ▸ digitChar_mem_decDigits (Nat.mod_lt _ (by norm_num))
      · exact hacc d h

lemma natDigitsGo_ne_nil :
    ∀ fuel n acc, 0 < n → n ≤ fuel → natDigitsGo fuel n acc ≠ [] := by
  intro fuel
  induction fuel with
  | zero => intro n acc hn hle; omega
  | succ f ih =>
    intro n acc hn hle
    cases n with
    | zero => omega
    | succ m =>
      show natDigitsGo f ((m + 1) / 10) (Nat.digitChar ((m + 1) % 10) :: acc) ≠ []
      by_cases hq : (m + 1) / 10 = 0
      · rw [hq, natDigitsGo_zero]; simp
      · exact ih _ _ (Nat.pos_of_ne_zero hq)
          (by have := Nat.div_lt_self (Nat.succ_pos m) (by norm_num : 1 < 10); omega)

lemma digitsVal_cons (c : Char) (l : List Char) (init : Nat) :
    digitsVal (c :: l) init = digitsVal l (init * 10 + (c.toNat - 48)) := rfl

lemma digitsVal_nil (init : Nat) : digitsVal [] init = init := rfl

lemma natDigitsGo_val :
    ∀ fuel n acc, n ≤ fuel →
      ∃ k, ∀ init, digitsVal (natDigitsGo fuel n acc) init
        = digitsVal acc (init * 10 ^ k + n) := by
  intro fuel
  induction fuel with
  | zero =>
    intro n acc hle
    refine ⟨0, fun init => ?_⟩
    have hn : n = 0 := Nat.le_zero.mp hle
    subst hn
    simp [natDigitsGo_zero]
  | succ f ih =>
    intro n acc hle
    cases n with
    | zero => exact ⟨0, fun init => by simp [natDigitsGo_zero]⟩
    | succ m =>
      have hq : (m + 1) / 10 ≤ f := by
        have := Nat.div_lt_self (Nat.succ_pos m) (by norm_num : 1 < 10)
        omega
      obtain ⟨k, hk⟩ := ih ((m + 1) / 10) (Nat.digitChar ((m + 1) % 10) :: acc) hq
      refine ⟨k + 1, fun init => ?_⟩
      show digitsVal (natDigitsGo f ((m + 1) / 10)
        (Nat.digitChar ((m + 1) % 10) :: acc)) init = _
      rw [hk, digitsVal_cons, digitChar_toNat (Nat.mod_lt _ (by norm_num))]
      congr 1
      have hdm := Nat.div_add_mod (m + 1) 10
      ring_nf
      omega

lemma digitsToNat_natToString (n : Nat) : digitsToNat (natToString n).data = n := by
  by_cases h : n = 0
  · subst h; decide
  · rw [natToString, if_neg h]
    obtain ⟨k, hk⟩ := natDigitsGo_val n n [] (Nat.le_refl n)
    show digitsVal (natDigitsGo n n []) 0 = n
    rw [hk, digitsVal_nil]
    simp

lemma natToString_data_ne_nil (n : Nat) : (natToString n).data ≠ [] := by
  by_cases h : n = 0
  · subst h; decide
  · rw [natToString, if_neg h]
    exact natDigitsGo_ne_nil n n [] (Nat.pos_of_ne_zero h) (Nat.le_refl n)

lemma natToString_data_mem (n : Nat) : ∀ c ∈ (natToString n).data, c ∈ decDigits := by
  by_cases h : n = 0
  · subst h; decide
  · rw [natToString, if_neg h]
    exact natDigitsGo_mem n n [] (by simp)

/-- Shape of the rendered integer: a nonempty character list whose head is
a minus sign or a digit and whose tail is all digits; moreover the minus
sign occurs only for negative values, with a nonempty digit tail. -/
lemma intToString_shape (i : Int) :
    ∃ c cs, (intToString i).data = c :: cs ∧ (c = '-' ∨ c ∈ decDigits) ∧
      ∀ d ∈ cs, d ∈ decDigits := by
  cases i with
  | ofNat n =>
    rcases hl : (natToString n).data with _ | ⟨c, cs⟩
    · exact absurd hl (natToString_data_ne_nil n)
    · refine ⟨c, cs, hl, Or.inr ?_, fun d hd => ?_⟩
      · exact natToString_data_mem n c (hl ▸ List.mem_cons_self c cs)
      · exact natToString_data_mem n d (hl ▸ List.mem_cons_of_mem c hd)
  | negSucc n =>
    refine ⟨'-', (natToString (n + 1)).data, ?_, Or.inl rfl, fun d hd => ?_⟩
    · show (("-" : String) ++ natToString (n + 1)).data = _
      rw [String.data_append]
      rfl
    · exact natToString_data_mem (n + 1) d hd

lemma parseIntOr0_intToString (i : Int) : parseIntOr0 (intToString i).data = i := by
  cases i with
  | ofNat n =>
    rcases hl : (natToString n).data with _ | ⟨c, cs⟩
    · exact absurd hl (natToString_data_ne_nil n)
    · have hc : c ∈ decDigits := natToString_data_mem n c (hl ▸ List.mem_cons_self c cs)
      have hcne : c ≠ '-' := (decDigits_classes c hc).2.2.2
      show parseIntOr0 (natToString n).data = Int.ofNat n
      rw [hl, parseIntOr0, if_neg hcne, ← hl, digitsToNat_natToString]
      rfl
  | negSucc n =>
    have hdata : (intToString (Int.negSucc n)).data = '-' :: (natToString (n + 1)).data := by
      show (("-" : String) ++ natToString (n + 1)).data = _
      rw [String.data_append]; rfl
    rw [hdata, parseIntOr0, if_pos rfl, if_neg (natToString_data_ne_nil (n + 1)),
      digitsToNat_natToString]
    simp [Int.negSucc_eq]

/-! ### Lemmas: running the scanner over a canonical string -/

lemma scanGo_idle_upper (c : Char) (rest : List Char) (hc : c.isUpper = true) :
    scanGo .idle (c :: rest) = scanGo (.sym1 [c]) rest := by
  simp [scanGo, stepChar, hc]

lemma scanGo_sym1_lower (s : List Char) (c : Char) (rest : List Char)
    (hc : c.isLower = true) :
    scanGo (.sym1 s) (c :: rest) = scanGo (.sym2 (s ++ [c])) rest := by
  simp [scanGo, stepChar, hc]

lemma scanGo_num_digits :
    ∀ ds s n rest, (∀ c ∈ ds, c ∈ decDigits) →
      scanGo (.num s n) (ds ++ rest) = scanGo (.num s (n ++ ds)) rest := by
  intro ds
  induction ds with
  | nil => intro s n rest _; simp
  | cons d ds ih =>
    intro s n rest hmem
    have hd : d.isDigit = true :=
      (decDigits_classes d (hmem d (List.mem_cons_self d ds))).1
    show (stepChar (.num s n) d).1 ++ scanGo (stepChar (.num s n) d).2 (ds ++ rest) = _
    rw [show stepChar (.num s n) d = ([], .num s (n ++ [d])) by simp [stepChar, hd]]
    rw [List.nil_append, ih s (n ++ [d]) rest
      (fun c hc => hmem c (List.mem_cons_of_mem d hc))]
    simp

lemma scanGo_sym1_int (i : Int) (s : List Char) (rest : List Char) :
    scanGo (.sym1 s) ((intToString i).data ++ rest)
      = scanGo (.num s (intToString i).data) rest := by
  obtain ⟨c, cs, hdata, hc, hcs⟩ := intToString_shape i
  rw [hdata]
  show (stepChar (.sym1 s) c).1 ++ scanGo (stepChar (.sym1 s) c).2 (cs ++ rest) = _
  have hstep : stepChar (.sym1 s) c = ([], .num s [c]) := by
    rcases hc with h | h
    · subst h; simp [stepChar]
    · obtain ⟨hdig, _, hlow, hne⟩ := decDigits_classes c h
      simp [stepChar, hlow, hne, hdig]
  rw [hstep, List.nil_append, scanGo_num_digits cs s [c] rest hcs]
  simp

lemma scanGo_sym2_int (i : Int) (s : List Char) (rest : List Char) :
    scanGo (.sym2 s) ((intToString i).data ++ rest)
      = scanGo (.num s (intToString i).data) rest := by
  obtain ⟨c, cs, hdata, hc, hcs⟩ := intToString_shape i
  rw [hdata]
  show (stepChar (.sym2 s) c).1 ++ scanGo (stepChar (.sym2 s) c).2 (cs ++ rest) = _
  have hstep : stepChar (.sym2 s) c = ([], .num s [c]) := by
    rcases hc with h | h
    · subst h; simp [stepChar]
    · obtain ⟨hdig, _, _, hne⟩ := decDigits_classes c h
      simp [stepChar, hne, hdig]
  rw [hstep, List.nil_append, scanGo_num_digits cs s [c] rest hcs]
  simp

lemma scanGo_num_upper (s n : List Char) (c : Char) (rest : List Char)
    (hup : c.isUpper = true) (hdig : c.isDigit = false) :
    scanGo (.num s n) (c :: rest)
      = (String.mk s, String.mk n) :: scanGo (.sym1 [c]) rest := by
  simp [scanGo, stepChar, flushState, hup, hdig]

lemma scanGo_num_nil (s n : List Char) :
    scanGo (.num s n) [] = [(String.mk s, String.mk n)] := rfl

/-- Scanning the canonical string of a formula produces exactly one token
per element, in canonical order, carrying the rendered counts. -/
lemma scanFormulaTokens_canonical (f : AtomicFormula) :
    scanFormulaTokens f.toFormulaString =
      [("C", intToString f.carbon), ("H", intToString f.hydrogen),
       ("Cl", intToString f.chlorine), ("N", intToString f.nitrogen),
       ("O", intToString f.oxygen), ("P", intToString f.phosphorus),
       ("S", intToString f.sulfur)] := by
  have hdata : (f.toFormulaString).data =
      'C' :: ((intToString f.carbon).data ++ ('H' :: ((intToString f.hydrogen).data ++
      ('C' :: 'l' :: ((intToString f.chlorine).data ++ ('N' :: ((intToString f.nitrogen).data ++
      ('O' :: ((intToString f.oxygen).data ++ ('P' :: ((intToString f.phosphorus).data ++
      ('S' :: ((intToString f.sulfur).data ++ ([] : List Char)))))))))))))) := by
    show (("C" ++ intToString f.carbon ++ "H" ++ intToString f.hydrogen ++
      "Cl" ++ intToString f.chlorine ++ "N" ++ intToString f.nitrogen ++
      "O" ++ intToString f.oxygen ++ "P" ++ intToString f.phosphorus ++
      "S" ++ intToString f.sulfur : String)).data = _
    simp only [String.data_append]
    simp [List.append_assoc]
  rw [scanFormulaTokens, hdata]
  rw [scanGo_idle_upper 'C' _ (by decide)]
  rw [scanGo_sym1_int f.carbon]
  rw [scanGo_num_upper _ _ 'H' _ (by decide) (by decide)]
  rw [scanGo_sym1_int f.hydrogen]
  rw [scanGo_num_upper _ _ 'C' _ (by decide) (by decide)]
  rw [scanGo_sym1_lower _ 'l' _ (by decide)]
  rw [scanGo_sym2_int f.chlorine]
  rw [scanGo_num_upper _ _ 'N' _ (by decide) (by decide)]
  rw [scanGo_sym1_int f.nitrogen]
  rw [scanGo_num_upper _ _ 'O' _ (by decide) (by decide)]
  rw [scanGo_sym1_int f.oxygen]
  rw [scanGo_num_upper _ _ 'P' _ (by decide) (by decide)]
  rw [scanGo_sym1_int f.phosphorus]
  rw [scanGo_num_upper _ _ 'S' _ (by decide) (by decide)]
  rw [show ((intToString f.sulfur).data ++ ([] : List Char))
    = (intToString f.sulfur).data ++ ([] : List Char) from rfl]
  rw [scanGo_sym1_int f.sulfur]
  rw [scanGo_num_nil]
  have hmk : ∀ s : String, String.mk s.data = s := fun s => by cases s; rfl
  simp [hmk]

/-- The round trip: parsing the canonical string of any formula recovers
the formula, component by component. -/
lemma parseFormulaString_toFormulaString (f : AtomicFormula) :
    AtomicFormula.parseFormulaString f.toFormulaString = f := by
  rw [AtomicFormula.parseFormulaString, scanFormulaTokens_canonical]
  simp only [lastCount, List.foldl]
  simp +decide [parseIntOr0_intToString]

/-! ### Lemmas: batching, index, and the matching loop -/

lemma chunkGo_flatten :
    ∀ fuel bs l, 1 ≤ bs → l.length ≤ fuel → (chunkGo bs fuel l).flatten = l := by
  intro fuel
  induction fuel with
  | zero =>
    intro bs l _ hl
    cases l with
    | nil => rfl
    | cons c cs => simp at hl
  | succ f ih =>
    intro bs l hbs hl
    cases l with
    | nil => rfl
    | cons c cs =>
      show ((c :: cs).take bs :: chunkGo bs f ((c :: cs).drop bs)).flatten = c :: cs
      rw [List.flatten_cons, ih bs _ hbs (by simp at hl ⊢; omega),
        List.take_append_drop]

lemma flatMap_flatMap_flatten (L : List (List FormulaEntry))
    (g : FormulaEntry → List MatchResult) :
    L.flatMap (fun b => b.flatMap g) = L.flatten.flatMap g := by
  induction L with
  | nil => rfl
  | cons a L ih => simp [ih]

/-- Batching is result-invariant: for any positive batch size, the batched
loop emits exactly the flat double-loop match list. -/
lemma batched_eq_flat (bs : Nat) (formulas : List FormulaEntry)
    (corrections : List Correction) (hbs : 1 ≤ bs) :
    applyCorrectionsBatched bs formulas corrections
      = matchLoopFlat formulas corrections := by
  show (chunkList bs formulas).flatMap _ = _
  rw [flatMap_flatMap_flatten, chunkList,
    chunkGo_flatten formulas.length bs formulas hbs (Nat.le_refl _)]
  rfl

lemma buildIndex_eq (formulas : List FormulaEntry) :
    buildIndex formulas
      = (formulas.map (fun c => (c.originalFormula.toFormulaString, c))).reverse := by
  have key : ∀ (l : List FormulaEntry) (init : List (String × FormulaEntry)),
      l.foldl (fun m c => (c.originalFormula.toFormulaString, c) :: m) init
        = (l.map (fun c => (c.originalFormula.toFormulaString, c))).reverse ++ init := by
    intro l
    induction l with
    | nil => intro init; rfl
    | cons c cs ih =>
      intro init
      show cs.foldl _ ((c.originalFormula.toFormulaString, c) :: init) = _
      rw [ih]
      simp
  show formulas.foldl _ [] = _
  rw [key]
  simp

/-- Every binding of the index pairs the canonical string of its entry with
that entry, and the entry comes from the catalog. -/
lemma mem_buildIndex {formulas : List FormulaEntry} {p : String × FormulaEntry}
    (hp : p ∈ buildIndex formulas) :
    p.1 = p.2.originalFormula.toFormulaString ∧ p.2 ∈ formulas := by
  rw [buildIndex_eq] at hp
  rw [List.mem_reverse, List.mem_map] at hp
  obtain ⟨c, hc, hpc⟩ := hp
  subst hpc
  exact ⟨rfl, hc⟩

lemma indexGet_buildIndex_some {formulas : List FormulaEntry} {key : String}
    {e : FormulaEntry} (h : indexGet (buildIndex formulas) key = some e) :
    e.originalFormula.toFormulaString = key ∧ e ∈ formulas := by
  rw [indexGet, Option.map_eq_some'] at h
  obtain ⟨p, hfind, hp2⟩ := h
  have hpt := @List.find?_some (String × FormulaEntry)
    (fun q => decide (q.1 = key)) p (buildIndex formulas) hfind
  have hpk : p.1 = key := of_decide_eq_true hpt
  obtain ⟨hcanon, hcat⟩ := mem_buildIndex (List.mem_of_find?_eq_some hfind)
  subst hp2
  exact ⟨hcanon ▸ hpk, hcat⟩

/-- Characterization of an emitted match record. -/
lemma tryMatch_some {idx : List (String × FormulaEntry)} {f : FormulaEntry}
    {corr : Correction} {m : MatchResult} (h : tryMatch idx f corr = some m) :
    m.originalEntry = f ∧ m.appliedCorrection = corr.formula ∧
    indexGet idx ((f.originalFormula.add corr.formula).toFormulaString)
      = some m.matchedEntry ∧
    m.matchedEntry.id ≠ f.id := by
  simp only [tryMatch] at h
  split at h
  · rename_i me hg
    split at h
    · rename_i hid
      have hm := Option.some.inj h
      subst hm
      exact ⟨rfl, rfl, hg, hid⟩
    · exact absurd h (by simp)
  · exact absurd h (by simp)

set_option maxHeartbeats 1000000 in
/-- The last-write-wins lookup: the index finds the entry whose canonical
string matches, searching the catalog from its end. -/
lemma indexGet_last_write_wins (formulas : List FormulaEntry) (key : String) :
    indexGet (buildIndex formulas) key
      = formulas.reverse.find? (fun e => e.originalFormula.toFormulaString = key) := by
  show ((buildIndex formulas).find? (fun p => p.1 = key)).map (fun p => p.2) = _
  rw [buildIndex_eq, ← List.map_reverse, List.find?_map, Option.map_map]
  cases hfind : formulas.reverse.find?
      (fun e => decide (e.originalFormula.toFormulaString = key)) with
  | none =>
    have hg : List.find? ((fun p : String × FormulaEntry => decide (p.1 = key)) ∘
        fun c => (c.originalFormula.toFormulaString, c)) formulas.reverse = none := hfind
    rw [hg]
    rfl
  | some e =>
    have hg : List.find? ((fun p : String × FormulaEntry => decide (p.1 = key)) ∘
        fun c => (c.originalFormula.toFormulaString, c)) formulas.reverse = some e := hfind
    rw [hg]
    rfl

/-- Soundness of every match emitted by the flat loop: the corrected
formula has the canonical string of the matched entry, the two ids differ,
and both entries come from the catalog. -/
lemma mem_matchLoopFlat_sound {formulas : List FormulaEntry}
    {corrections : List Correction} {m : MatchResult}
    (hm : m ∈ matchLoopFlat formulas corrections) :
    (m.originalEntry.originalFormula.add m.appliedCorrection).toFormulaString
      = m.matchedEntry.originalFormula.toFormulaString ∧
    m.originalEntry.id ≠ m.matchedEntry.id ∧
    m.originalEntry ∈ formulas ∧ m.matchedEntry ∈ formulas := by
  simp only [matchLoopFlat] at hm
  obtain ⟨f, hf, hm2⟩ := List.mem_flatMap.mp hm
  obtain ⟨corr, hcorr, htm⟩ := List.mem_filterMap.mp hm2
  obtain ⟨hof, hac, hget, hid⟩ := tryMatch_some htm
  obtain ⟨hcanon, hmem⟩ := indexGet_buildIndex_some hget
  subst hof
  rw [← hac] at hcanon
  exact ⟨hcanon.symm, fun h => hid h.symm, hf, hmem⟩

/-! ### Lemmas: scanning a symbol followed by a plus sign -/

lemma scanGo_idle_nonupper :
    ∀ l, (∀ c ∈ l, c.isUpper = false) → scanGo .idle l = [] := by
  intro l
  induction l with
  | nil => intro _; rfl
  | cons c cs ih =>
    intro h
    show (stepChar .idle c).1 ++ scanGo (stepChar .idle c).2 cs = []
    rw [show stepChar .idle c = ([], .idle) from by
      simp [stepChar, h c (List.mem_cons_self c cs)]]
    rw [List.nil_append]
    exact ih (fun d hd => h d (List.mem_cons_of_mem c hd))

lemma scanGo_idle_decDigits (l : List Char) (h : ∀ c ∈ l, c ∈ decDigits) :
    scanGo .idle l = [] :=
  scanGo_idle_nonupper l (fun c hc => (decDigits_classes c (h c hc)).2.1)

lemma scanGo_upper_plus (c : Char) (hc : c.isUpper = true) (rest : List Char) :
    scanGo .idle (c :: '+' :: rest) = (String.mk [c], "") :: scanGo .idle rest := by
  rw [scanGo_idle_upper c _ hc]
  show (stepChar (.sym1 [c]) '+').1 ++ scanGo (stepChar (.sym1 [c]) '+').2 rest = _
  rw [show stepChar (.sym1 [c]) '+' = ([(String.mk [c], "")], .idle) from by
    simp +decide [stepChar, flushState]]
  rfl

lemma scanGo_upper_lower_plus (c d : Char) (hc : c.isUpper = true)
    (hd : d.isLower = true) (rest : List Char) :
    scanGo .idle (c :: d :: '+' :: rest) = (String.mk [c, d], "") :: scanGo .idle rest := by
  rw [scanGo_idle_upper c _ hc, scanGo_sym1_lower [c] d _ hd]
  show (stepChar (.sym2 [c, d]) '+').1 ++ scanGo (stepChar (.sym2 [c, d]) '+').2 rest = _
  rw [show stepChar (.sym2 [c, d]) '+' = ([(String.mk [c, d], "")], .idle) from by
    simp +decide [stepChar, flushState]]
  rfl

lemma lastCount_single_empty (s sym : String) : lastCount s [(sym, "")] = 0 := by
  simp [lastCount, parseIntOr0]

/-- Parsing a tracked symbol followed by a plus-prefixed integer yields the
all-zero formula: the plus sign ends the regex match with an empty count
capture, and the digits after it can start no further match. -/
lemma parse_symbol_plus_eq_zero (sym : String)
    (hsym : sym ∈ (["C", "H", "N", "O", "S", "P", "Cl"] : List String)) (n : Nat) :
    AtomicFormula.parseFormulaString (sym ++ "+" ++ natToString n) = zeroFormula := by
  have hrest : scanGo .idle (natToString n).data = [] :=
    scanGo_idle_decDigits _ (natToString_data_mem n)
  fin_cases hsym
  case _ =>
    have hdata : (("C" : String) ++ "+" ++ natToString n).data
        = 'C' :: '+' :: (natToString n).data := by
      simp only [String.data_append]; rfl
    simp only [AtomicFormula.parseFormulaString, scanFormulaTokens, hdata,
      scanGo_upper_plus 'C' (by decide), hrest, lastCount_single_empty]
    rfl
  case _ =>
    have hdata : (("H" : String) ++ "+" ++ natToString n).data
        = 'H' :: '+' :: (natToString n).data := by
      simp only [String.data_append]; rfl
    simp only [AtomicFormula.parseFormulaString, scanFormulaTokens, hdata,
      scanGo_upper_plus 'H' (by decide), hrest, lastCount_single_empty]
    rfl
  case _ =>
    have hdata : (("N" : String) ++ "+" ++ natToString n).data
        = 'N' :: '+' :: (natToString n).data := by
      simp only [String.data_append]; rfl
    simp only [AtomicFormula.parseFormulaString, scanFormulaTokens, hdata,
      scanGo_upper_plus 'N' (by decide), hrest, lastCount_single_empty]
    rfl
  case _ =>
    have hdata : (("O" : String) ++ "+" ++ natToString n).data
        = 'O' :: '+' :: (natToString n).data := by
      simp only [String.data_append]; rfl
    simp only [AtomicFormula.parseFormulaString, scanFormulaTokens, hdata,
      scanGo_upper_plus 'O' (by decide), hrest, lastCount_single_empty]
    rfl
  case _ =>
    have hdata : (("S" : String) ++ "+" ++ natToString n).data
        = 'S' :: '+' :: (natToString n).data := by
      simp only [String.data_append]; rfl
    simp only [AtomicFormula.parseFormulaString, scanFormulaTokens, hdata,
      scanGo_upper_plus 'S' (by decide), hrest, lastCount_single_empty]
    rfl
  case _ =>
    have hdata : (("P" : String) ++ "+" ++ natToString n).data
        = 'P' :: '+' :: (natToString n).data := by
      simp only [String.data_append]; rfl
    simp only [AtomicFormula.parseFormulaString, scanFormulaTokens, hdata,
      scanGo_upper_plus 'P' (by decide), hrest, lastCount_single_empty]
    rfl
  case _ =>
    have hdata : (("Cl" : String) ++ "+" ++ natToString n).data
        = 'C' :: 'l' :: '+' :: (natToString n).data := by
      simp only [String.data_append]; rfl
    simp only [AtomicFormula.parseFormulaString, scanFormulaTokens, hdata,
      scanGo_upper_lower_plus 'C' 'l' (by decide) (by decide), hrest,
      lastCount_single_empty]
    rfl

/-! ### Claim theorems -/

/-- C1: every match record produced by applyCorrections satisfies the
Match definition: the canonical string of the sum of the original entry
formula and the applied correction equals the canonical string of the
matched entry formula, and the two entry ids differ — in particular no
match, for an all-zero delta or otherwise, relates an entry to itself. -/
theorem claim_C1_match_soundness (formulas : List FormulaEntry)
    (corrections : List Correction) (res : List MatchResult) (m : MatchResult)
    (hok : applyCorrections formulas corrections = .ok res) (hm : m ∈ res) :
    (m.originalEntry.originalFormula.add m.appliedCorrection).toFormulaString
      = m.matchedEntry.originalFormula.toFormulaString ∧
    m.originalEntry.id ≠ m.matchedEntry.id := by
  rw [applyCorrections] at hok
  split at hok
  · exact absurd hok (by simp)
  · have hres := Except.ok.inj hok
    subst hres
    rw [batched_eq_flat 100 formulas corrections (by norm_num)] at hm
    exact ⟨(mem_matchLoopFlat_sound hm).1, (mem_matchLoopFlat_sound hm).2.1⟩

/-- Witness for C1 at the end-to-end scenario of section 8. -/
theorem claim_C1_match_soundness_witness :
    (applyCorrections [sampleEntry1, sampleEntry2] [sampleCorrection]
        = .ok [sampleMatch] ∧ sampleMatch ∈ [sampleMatch]) ∧
    ((sampleMatch.originalEntry.originalFormula.add
        sampleMatch.appliedCorrection).toFormulaString
      = sampleMatch.matchedEntry.originalFormula.toFormulaString ∧
    sampleMatch.originalEntry.id ≠ sampleMatch.matchedEntry.id) :=
  ⟨⟨by rfl, by simp⟩,
   claim_C1_match_soundness [sampleEntry1, sampleEntry2] [sampleCorrection]
     [sampleMatch] sampleMatch (by rfl) (by simp)⟩

/-- C2: the index is last-write-wins — looking a canonical string up finds
the catalog entry whose canonical string matches, searching from the end
of the input order, so a later duplicate replaces an earlier one; on the
two-entry duplicate catalog with the zero-delta correction the run yields
exactly the single match from id 1 to id 2. -/
theorem claim_C2_index_overwrite :
    (∀ (entries : List FormulaEntry) (key : String),
      indexGet (buildIndex entries) key
        = entries.reverse.find? (fun e => e.originalFormula.toFormulaString = key)) ∧
    applyCorrections [dupEntry1, dupEntry2] [zeroCorrection]
      = .ok [⟨dupEntry1, dupEntry2, zeroCorrection.formula⟩] :=
  ⟨indexGet_last_write_wins, by rfl⟩

/-- C3: round trip through the canonical form — parsing the canonical
string of any formula (negative counts included) recovers the formula,
and two formulas have equal canonical strings exactly when they are
equal. -/
theorem claim_C3_round_trip :
    (∀ f : AtomicFormula,
      AtomicFormula.parseFormulaString f.toFormulaString = f) ∧
    (∀ f g : AtomicFormula,
      f.toFormulaString = g.toFormulaString ↔ f = g) := by
  refine ⟨parseFormulaString_toFormulaString,
    fun f g => ⟨fun h => ?_, fun h => h ▸ rfl⟩⟩
  have hf := parseFormulaString_toFormulaString f
  rw [h, parseFormulaString_toFormulaString g] at hf
  exact hf.symm

/-- C4 counterexample: running the matcher with a non-empty catalog and an
empty correction list surfaces an error instead of succeeding with zero
matches. -/
theorem claim_C4_counterexample :
    applyCorrections [sampleEntry1] ([] : List Correction)
      = .error "No formulas or corrections loaded" := by rfl

/-- C4 (amended): a run with an empty correction list is rejected by the
guard of applyCorrections: it surfaces the error message No formulas or
corrections loaded and computes no matches. -/
theorem claim_C4_empty_corrections_error (formulas : List FormulaEntry) :
    applyCorrections formulas [] = .error "No formulas or corrections loaded" := by
  have hc : formulas.length = 0 ∨ ([] : List Correction).length = 0 :=
    Or.inr rfl
  rw [applyCorrections, if_pos hc]

/-- C5: batching is result-invariant — for every batch size of at least 1
the batched computation returns exactly the match list of the flat double
loop over entries (outer, input order) and corrections (inner, input
order). -/
theorem claim_C5_batching_invariant (formulas : List FormulaEntry)
    (corrections : List Correction) (bs : Nat) (hbs : 1 ≤ bs) :
    applyCorrectionsBatched bs formulas corrections
      = matchLoopFlat formulas corrections :=
  batched_eq_flat bs formulas corrections hbs

/-- Witness for C5 with batch size 1 on the end-to-end scenario. -/
theorem claim_C5_batching_invariant_witness :
    1 ≤ 1 ∧
    applyCorrectionsBatched 1 [sampleEntry1, sampleEntry2] [sampleCorrection]
      = matchLoopFlat [sampleEntry1, sampleEntry2] [sampleCorrection] :=
  ⟨Nat.le_refl 1,
   claim_C5_batching_invariant [sampleEntry1, sampleEntry2] [sampleCorrection]
     1 (Nat.le_refl 1)⟩

/-- C6: parse is total and defaults to zero — the empty string, an
untracked symbol, and a tracked symbol with a missing count all parse to
the all-zero formula, while C3H8 parses to carbon 3 and hydrogen 8 with
every other count 0. -/
theorem claim_C6_parse_defaults :
    AtomicFormula.parseFormulaString "" = zeroFormula ∧
    AtomicFormula.parseFormulaString "Xy" = zeroFormula ∧
    AtomicFormula.parseFormulaString "C" = zeroFormula ∧
    AtomicFormula.parseFormulaString "C3H8" = ⟨3, 8, 0, 0, 0, 0, 0⟩ := by
  decide

/-- C9: parse only recognizes a minus sign on counts, never a plus sign —
a tracked element symbol followed by a plus-prefixed integer contributes
count 0, so the whole string parses to the all-zero formula. -/
theorem claim_C9_plus_sign_ignored :
    ∀ sym ∈ (["C", "H", "N", "O", "S", "P", "Cl"] : List String), ∀ n : Nat,
      AtomicFormula.parseFormulaString (sym ++ "+" ++ natToString n) = zeroFormula :=
  fun sym hsym n => parse_symbol_plus_eq_zero sym hsym n

/-- Witness for C9 at the string C+3. -/
theorem claim_C9_plus_sign_ignored_witness :
    "C" ∈ (["C", "H", "N", "O", "S", "P", "Cl"] : List String) ∧
    AtomicFormula.parseFormulaString ("C" ++ "+" ++ natToString 3) = zeroFormula :=
  ⟨by decide, claim_C9_plus_sign_ignored "C" (by decide) 3⟩

/-- C10: the Matches column of an export row is the empty string when the
entry has no matches, and a bracketed comma-joined description list when
it has at least one. -/
theorem claim_C10_empty_matches_column (results : List MatchResult)
    (f : FormulaEntry) :
    (results.filter (fun r => r.originalEntry.id = f.id) = [] →
      (exportRow results f).matchesColumn = "") ∧
    (results.filter (fun r => r.originalEntry.id = f.id) ≠ [] →
      (exportRow results f).matchesColumn
        = "[" ++ String.intercalate ", "
            ((results.filter (fun r => r.originalEntry.id = f.id)).map
              matchDescription) ++ "]") := by
  constructor
  · intro h
    simp only [exportRow, h]
    rfl
  · intro h
    have hlen : 0 < (results.filter (fun r => r.originalEntry.id = f.id)).length :=
      List.length_pos.mpr h
    simp only [exportRow]
    rw [if_pos hlen]

/-- Witness for C10: the empty-result case and the one-match case at the
end-to-end scenario. -/
theorem claim_C10_empty_matches_column_witness :
    (([] : List MatchResult).filter
        (fun r => r.originalEntry.id = sampleEntry1.id) = [] ∧
      (exportRow [] sampleEntry1).matchesColumn = "") ∧
    ([sampleMatch].filter (fun r => r.originalEntry.id = sampleEntry1.id) ≠ [] ∧
      (exportRow [sampleMatch] sampleEntry1).matchesColumn
        = "[" ++ String.intercalate ", "
            (([sampleMatch].filter
              (fun r => r.originalEntry.id = sampleEntry1.id)).map
              matchDescription) ++ "]") :=
  ⟨⟨by rfl, (claim_C10_empty_matches_column [] sampleEntry1).1 (by rfl)⟩,
   ⟨by decide,
    (claim_C10_empty_matches_column [sampleMatch] sampleEntry1).2 (by decide)⟩⟩

/-! ### Claim C7: schema validation -/

lemma validateCSVStructure_missing_formulas {headers : List String}
    (hmiss : ∀ h ∈ headers, jsTrim h ≠ "formulas") :
    ((∃ h ∈ headers, jsTrim h = "ID") →
      validateCSVStructure headers
        = some "Missing required column(s): formulas") ∧
    ((∀ h ∈ headers, jsTrim h ≠ "ID") →
      validateCSVStructure headers
        = some "Missing required column(s): ID, formulas") := by
  have hanyf : headers.any (fun header => jsTrim header = "formulas") = false := by
    rw [List.any_eq_false]
    intro h hh
    simpa using hmiss h hh
  constructor
  · intro hID
    obtain ⟨h, hh, htrim⟩ := hID
    have hany : headers.any (fun header => jsTrim header = "ID") = true := by
      rw [List.any_eq_true]
      exact ⟨h, hh, by simp [htrim]⟩
    simp only [validateCSVStructure, List.filter_cons, List.filter_nil,
      hanyf, hany]
    decide
  · intro hnoID
    have hany0 : headers.any (fun header => jsTrim header = "ID") = false := by
      rw [List.any_eq_false]
      intro h hh
      simpa using hnoID h hh
    simp only [validateCSVStructure, List.filter_cons, List.filter_nil,
      hanyf, hany0]
    decide

/-- C7 (amended): for every header set whose trimmed headers all differ
from formulas, the load fails and the catalog is reset to empty, with the
error naming the missing required columns: exactly formulas whenever a
trimmed ID header is present, and exactly ID, formulas whenever every
trimmed header also differs from ID. -/
theorem claim_C7_schema_error (prev : List FormulaEntry) (headers : List String)
    (rows : List CSVRow) (hmiss : ∀ h ∈ headers, jsTrim h ≠ "formulas") :
    ((∃ h ∈ headers, jsTrim h = "ID") →
      handleFormulaRecords prev headers rows
        = ([], some "Missing required column(s): formulas")) ∧
    ((∀ h ∈ headers, jsTrim h ≠ "ID") →
      handleFormulaRecords prev headers rows
        = ([], some "Missing required column(s): ID, formulas")) := by
  obtain ⟨hid, hboth⟩ := validateCSVStructure_missing_formulas hmiss
  constructor
  · intro hID
    simp only [handleFormulaRecords, hid hID]
  · intro hnoID
    simp only [handleFormulaRecords, hboth hnoID]

/-- Witness for C7 (amended): the ID-only header list exercises the
exactly-formulas branch and the foo header list the both-missing
branch. -/
theorem claim_C7_schema_error_witness :
    ((∀ h ∈ (["ID"] : List String), jsTrim h ≠ "formulas") ∧
      handleFormulaRecords [] ["ID"] []
        = ([], some "Missing required column(s): formulas")) ∧
    ((∀ h ∈ (["foo"] : List String), jsTrim h ≠ "formulas") ∧
      (∀ h ∈ (["foo"] : List String), jsTrim h ≠ "ID") ∧
      handleFormulaRecords [] ["foo"] []
        = ([], some "Missing required column(s): ID, formulas")) :=
  ⟨⟨by decide,
    (claim_C7_schema_error [] ["ID"] [] (by decide)).1
      ⟨"ID", by decide, by decide⟩⟩,
   ⟨by decide, by decide,
    (claim_C7_schema_error [] ["foo"] [] (by decide)).2 (by decide)⟩⟩

/-- C7 counterexample: a header set lacking both required columns fails
with a message naming both ID and formulas, not exactly formulas. -/
theorem claim_C7_counterexample :
    handleFormulaRecords [] ["foo"] []
      = ([], some "Missing required column(s): ID, formulas") ∧
    "Missing required column(s): ID, formulas"
      ≠ "Missing required column(s): formulas" := by
  decide

/-! ### Claim C8: export row descriptions -/

/-- C8 counterexample: at the end-to-end scenario the exported description
uses spaces around both equal signs, so it differs from the exact format
the claim states. -/
theorem claim_C8_counterexample :
    (exportRow [sampleMatch] sampleEntry1).matchesColumn
      = "[correction = C0H1Cl0N0O0P0S0 result = (ID 2) C10H21Cl0N2O5P0S1]" ∧
    matchDescriptionsClaimed [sampleMatch] sampleEntry1
      = ["correction=C0H1Cl0N0O0P0S0 result=(ID 2) C10H21Cl0N2O5P0S1"] ∧
    (exportRow [sampleMatch] sampleEntry1).matchesColumn
      ≠ "[" ++ "correction=C0H1Cl0N0O0P0S0 result=(ID 2) C10H21Cl0N2O5P0S1"
          ++ "]" := by
  decide

/-- C8 (amended): the Matches column of an export row is built from the
ordered list of description strings of the form
correction = (delta) result = (ID (matchedId)) (matchedFormula) — spaces
around both equal signs — one per match whose originalEntry id is the
entry id, in engine emission order, bracketed and comma-joined when the
entry has matches and empty otherwise; the match count column is the
length of that list. -/
theorem claim_C8_export_descriptions (results : List MatchResult)
    (f : FormulaEntry) :
    (exportRow results f).numberOfMatches
      = (matchDescriptionsAmended results f).length ∧
    (exportRow results f).matchesColumn =
      (if matchDescriptionsAmended results f = [] then ""
       else "[" ++ String.intercalate ", " (matchDescriptionsAmended results f)
         ++ "]") := by
  constructor
  · simp [exportRow, matchDescriptionsAmended]
  · by_cases hf : results.filter (fun r => r.originalEntry.id = f.id) = []
    · simp [exportRow, matchDescriptionsAmended, hf]
    · have hlen : 0 < (results.filter (fun r => r.originalEntry.id = f.id)).length :=
        List.length_pos.mpr hf
      have hnonnil : matchDescriptionsAmended results f ≠ [] := by
        simp [matchDescriptionsAmended, hf]
      simp only [exportRow, if_pos hlen, if_neg hnonnil]
      rfl

end FormulaCorrection
